import Mathlib

/-!
Shallow embedding of the Postgres filter-translation helpers
(`translateFilter`, `translateNewDSL`, `translateLegacyFilter`,
`translateCondition`, `toSnakeCase`, `toAllowedColumn`) of the rag-stack
repository, together with theorems about injection safety, error
behaviour, and the shape of the emitted SQL fragments.

JavaScript `unknown` values that flow through the translator untouched are
modelled by the `Value` type below; `undefined` and `null` are explicit
constructors because the source distinguishes them (`=== undefined`
checks, `??` coalescing, falsiness of a missing `range`).
-/

deriving instance DecidableEq for Except

namespace RagStack

/-- A caller-supplied JSON value (TS `unknown`).  The translator never
inspects string/number contents; it only tests for `undefined`/`null`. -/
inductive Value where
  | undef : Value
  | null : Value
  | str : String → Value
  | int : Int → Value
deriving DecidableEq, Repr

/-- TS `a ?? b`: `b` when `a` is `undefined` or `null`, else `a`. -/
def nullish (a b : Value) : Value :=
  match a with
  | Value.undef => b
  | .null => b
  | _ => a

/-- Structure `FilterCondition` from the source.  `values` is `none` when the field
is absent or not an array (the source tests `Array.isArray`); `range` is
`none` when `cond.range` is falsy; the components of `range` may still be
`Value.undef`, mirroring `{ low: unknown, high: unknown }`.  The TS field
`alias` is called `aliasName` here because `alias` is a Lean keyword. -/
structure FilterCondition where
  field : String
  op : String
  value : Value := Value.undef
  values : Option (List Value) := none
  range : Option (Value × Value) := none
  aliasName : Option String := none
deriving DecidableEq, Repr

/-- Accessor `range.low` with JS semantics: accessing a missing range gives `undefined`. -/
def FilterCondition.rangeLow (c : FilterCondition) : Value :=
  match c.range with
  | some (low, _) => low
  | none => Value.undef

/-- Accessor `range.high` with JS semantics. -/
def FilterCondition.rangeHigh (c : FilterCondition) : Value :=
  match c.range with
  | some (_, high) => high
  | none => Value.undef

/-- Structure `FilterDSL` from the source.  `combine` is optional and, because the
input is unvalidated JSON, may hold any string. -/
structure FilterDSL where
  conditions : List FilterCondition
  combine : Option String := none
deriving DecidableEq, Repr

/-- Class `FilterValidationError` from the source: message plus the fixed
`statusCode = 400` and `name` of the class. -/
structure FilterValidationError where
  message : String
deriving DecidableEq, Repr

def FilterValidationError.statusCode (_ : FilterValidationError) : Nat := 400

def FilterValidationError.errName (_ : FilterValidationError) : String :=
  "FilterValidationError"

/-- Interface `FieldDef` from the source. -/
structure FieldDef where
  tableAlias : String
  column : String
  allowedOps : List String
deriving DecidableEq, Repr

def TEXT_OPS : List String := ["eq", "ne", "in", "notIn", "isNull", "isNotNull"]

def TEMPORAL_OPS : List String :=
  ["eq", "ne", "gt", "gte", "lt", "lte",
   "between", "notBetween", "in", "notIn", "isNull", "isNotNull"]

/-- The entries of the `FIELD_DEFS` map literal, in source order. -/
def FIELD_DEFS_entries : List (String × FieldDef) :=
  [("chunkIndex",       ⟨"c", "chunk_index",       TEMPORAL_OPS⟩),
   ("docType",          ⟨"c", "doc_type",          TEXT_OPS⟩),
   ("repoId",           ⟨"c", "repo_id",           TEXT_OPS⟩),
   ("repoUrl",          ⟨"c", "repo_url",          TEXT_OPS⟩),
   ("path",             ⟨"c", "path",              TEXT_OPS⟩),
   ("lang",             ⟨"c", "lang",              TEXT_OPS⟩),
   ("itemUrl",          ⟨"c", "item_url",          TEXT_OPS⟩),
   ("enrichmentStatus", ⟨"c", "enrichment_status", TEXT_OPS⟩),
   ("createdAt",        ⟨"c", "created_at",        TEMPORAL_OPS⟩),
   ("ingestedAt",       ⟨"d", "ingested_at",       TEMPORAL_OPS⟩),
   ("updatedAt",        ⟨"d", "updated_at",        TEMPORAL_OPS⟩),
   ("lastSeen",         ⟨"d", "last_seen",         TEMPORAL_OPS⟩),
   ("mimeType",         ⟨"d", "mime_type",         TEXT_OPS⟩)]

/-- Lookup `FIELD_DEFS.get(field)` in the map. -/
def FIELD_DEFS (field : String) : Option FieldDef :=
  (FIELD_DEFS_entries.find? (fun e => e.1 == field)).map (fun e => e.2)

/-- Result record of `translateCondition`. -/
structure CondResult where
  sql : String
  params : List Value
  nextIndex : Nat
deriving DecidableEq, Repr

/-- The placeholder strings `cond.values.map((_, i) => $\x7bparamIndex + i\x7d)`. -/
def placeholderList (paramIndex n : Nat) : List String :=
  (List.range n).map (fun i => "$" ++ toString (paramIndex + i))

/-- Function `translateCondition` from the source.  The TS `switch` on `cond.op`
is an equality chain; `!Array.isArray(cond.values) || cond.values.length
=== 0` becomes `(cond.values.getD []).length = 0` (a missing/non-array
`values` is `none`, whose default is `[]`). -/
def translateCondition (cond : FilterCondition) (paramIndex : Nat) :
    Except FilterValidationError CondResult :=
  match FIELD_DEFS cond.field with
  | none => .error ⟨"Unknown filter field: " ++ cond.field⟩
  | some fieldDef =>
    if cond.aliasName ≠ none ∧ cond.aliasName ≠ some fieldDef.tableAlias then
      .error ⟨"Field \"" ++ cond.field ++ "\" requires alias \"" ++
        fieldDef.tableAlias ++ "\", got \"" ++ (cond.aliasName.getD "") ++ "\""⟩
    else if cond.op ∉ fieldDef.allowedOps then
      .error ⟨"Operator \"" ++ cond.op ++ "\" not allowed for field \"" ++ cond.field ++ "\""⟩
    else
      let col := fieldDef.tableAlias ++ "." ++ fieldDef.column
      let isPath := fieldDef.column = "path"
      if cond.op = "eq" then
        if isPath then
          .ok ⟨col ++ " LIKE $" ++ toString paramIndex ++ " || '%'", [cond.value], paramIndex + 1⟩
        else
          .ok ⟨col ++ " = $" ++ toString paramIndex, [cond.value], paramIndex + 1⟩
      else if cond.op = "ne" then
        if isPath then
          .ok ⟨col ++ " NOT LIKE $" ++ toString paramIndex ++ " || '%'", [cond.value], paramIndex + 1⟩
        else
          .ok ⟨col ++ " != $" ++ toString paramIndex, [cond.value], paramIndex + 1⟩
      else if cond.op = "gt" then
        .ok ⟨col ++ " > $" ++ toString paramIndex, [cond.value], paramIndex + 1⟩
      else if cond.op = "gte" then
        .ok ⟨col ++ " >= $" ++ toString paramIndex, [cond.value], paramIndex + 1⟩
      else if cond.op = "lt" then
        .ok ⟨col ++ " < $" ++ toString paramIndex, [cond.value], paramIndex + 1⟩
      else if cond.op = "lte" then
        .ok ⟨col ++ " <= $" ++ toString paramIndex, [cond.value], paramIndex + 1⟩
      else if cond.op = "in" then
        if (cond.values.getD []).length = 0 then
          .error ⟨"Operator \"in\" requires non-empty values array for field \"" ++ cond.field ++ "\""⟩
        else
          .ok ⟨col ++ " IN (" ++
                String.intercalate ", " (placeholderList paramIndex (cond.values.getD []).length) ++ ")",
              cond.values.getD [], paramIndex + (cond.values.getD []).length⟩
      else if cond.op = "notIn" then
        if (cond.values.getD []).length = 0 then
          .error ⟨"Operator \"notIn\" requires non-empty values array for field \"" ++ cond.field ++ "\""⟩
        else
          .ok ⟨col ++ " NOT IN (" ++
                String.intercalate ", " (placeholderList paramIndex (cond.values.getD []).length) ++ ")",
              cond.values.getD [], paramIndex + (cond.values.getD []).length⟩
      else if cond.op = "between" then
        if cond.range = none ∨ cond.rangeLow = Value.undef ∨ cond.rangeHigh = Value.undef then
          .error ⟨"Operator \"between\" requires range.low and range.high for field \"" ++ cond.field ++ "\""⟩
        else
          .ok ⟨col ++ " >= $" ++ toString paramIndex ++ " AND " ++ col ++ " <= $" ++ toString (paramIndex + 1),
              [cond.rangeLow, cond.rangeHigh], paramIndex + 2⟩
      else if cond.op = "notBetween" then
        if cond.range = none ∨ cond.rangeLow = Value.undef ∨ cond.rangeHigh = Value.undef then
          .error ⟨"Operator \"notBetween\" requires range.low and range.high for field \"" ++ cond.field ++ "\""⟩
        else
          .ok ⟨"(" ++ col ++ " < $" ++ toString paramIndex ++ " OR " ++ col ++ " > $" ++ toString (paramIndex + 1) ++ ")",
              [cond.rangeLow, cond.rangeHigh], paramIndex + 2⟩
      else if cond.op = "isNull" then
        .ok ⟨col ++ " IS NULL", [], paramIndex⟩
      else if cond.op = "isNotNull" then
        .ok ⟨col ++ " IS NOT NULL", [], paramIndex⟩
      else
        .error ⟨"Unknown operator: " ++ cond.op⟩

example :
    translateCondition ⟨"docType", "eq", .str "code", none, none, none⟩ 1 =
      .ok ⟨"c.doc_type = $1", [.str "code"], 2⟩ := by decide

example :
    translateCondition ⟨"path", "eq", .str "src/", none, none, none⟩ 1 =
      .ok ⟨"c.path LIKE $1 || '%'", [.str "src/"], 2⟩ := by decide

/-- The `for (const cond of dsl.conditions)` loop of `translateNewDSL`:
collected SQL fragments, collected params, and the running `paramIndex`. -/
def translateConds (conds : List FilterCondition) (paramIndex : Nat) :
    Except FilterValidationError (List String × List Value × Nat) :=
  match conds with
  | [] => .ok ([], [], paramIndex)
  | cond :: rest =>
    match translateCondition cond paramIndex with
    | .error e => .error e
    | .ok r =>
      match translateConds rest r.nextIndex with
      | .error e => .error e
      | .ok (frags, ps, next) => .ok (r.sql :: frags, r.params ++ ps, next)

/-- Result record of `translateNewDSL` / `translateLegacyFilter` /
`translateFilter`: the SQL fragment and the ordered parameter list. -/
structure SqlResult where
  sql : String
  params : List Value
deriving DecidableEq, Repr

/-- ASCII `combine.toUpperCase()` (ASCII is all that reaches it). -/
def toUpperCase (s : String) : String :=
  ⟨s.data.map Char.toUpper⟩

/-- Function `translateNewDSL` from the source. -/
def translateNewDSL (dsl : FilterDSL) (paramIndexOffset : Nat) :
    Except FilterValidationError SqlResult :=
  let rawCombine := dsl.combine.getD "and"
  if rawCombine ≠ "and" ∧ rawCombine ≠ "or" then
    .error ⟨"Invalid combine operator \"" ++ rawCombine ++ "\". Expected \"and\" or \"or\"."⟩
  else
    match translateConds dsl.conditions (1 + paramIndexOffset) with
    | .error e => .error e
    | .ok (sqlFragments, params, _) =>
      if sqlFragments.length = 0 then
        .ok ⟨"", []⟩
      else
        let joined :=
          if sqlFragments.length = 1 then sqlFragments.headD ""
          else "(" ++ String.intercalate (" " ++ toUpperCase rawCombine ++ " ") sqlFragments ++ ")"
        .ok ⟨" AND " ++ joined, params⟩

example :
    translateNewDSL ⟨[⟨"docType", "eq", .str "code", none, none, none⟩,
                      ⟨"lang", "eq", .str "ts", none, none, none⟩], some "or"⟩ 0 =
      .ok ⟨" AND (c.doc_type = $1 OR c.lang = $2)", [.str "code", .str "ts"]⟩ := by decide

/-- Worker for `toSnakeCase` on the character list, tracking the regex match offset. -/
def toSnakeCaseAux : Nat → List Char → List Char
  | _, [] => []
  | offset, ch :: rest =>
    if ch.isUpper then
      (if offset = 0 then [ch.toLower] else ['_', ch.toLower]) ++ toSnakeCaseAux (offset + 1) rest
    else ch :: toSnakeCaseAux (offset + 1) rest

/-- Function `toSnakeCase` from the source: each `[A-Z]` match is lowercased, with
a leading underscore except at offset 0. -/
def toSnakeCase (str : String) : String :=
  ⟨toSnakeCaseAux 0 str.data⟩

example : toSnakeCase "docType" = "doc_type" := by decide

def ALLOWED_FILTER_COLUMNS : List String :=
  ["chunk_index", "doc_type", "repo_id", "repo_url",
   "path", "lang", "item_url", "enrichment_status"]

/-- First character class of the regex `^[a-z_][a-z0-9_]*$`. -/
def isColHeadChar (c : Char) : Bool :=
  (97 ≤ c.toNat && c.toNat ≤ 122) || c = '_'

/-- Tail character class of the regex `^[a-z_][a-z0-9_]*$`. -/
def isColTailChar (c : Char) : Bool :=
  (97 ≤ c.toNat && c.toNat ≤ 122) || (48 ≤ c.toNat && c.toNat ≤ 57) || c = '_'

/-- The test `/^[a-z_][a-z0-9_]*$/.test column`. -/
def matchesColumnRegex (s : String) : Bool :=
  match s.data with
  | [] => false
  | c :: rest => isColHeadChar c && rest.all isColTailChar

/-- Function `toAllowedColumn` from the source; the thrown plain `Error` is the
`String` error case. -/
def toAllowedColumn (key : String) : Except String String :=
  let column := toSnakeCase key
  if matchesColumnRegex column = false ∨ column ∉ ALLOWED_FILTER_COLUMNS then
    .error ("Unsupported filter key: " ++ key)
  else
    .ok column

example : toAllowedColumn "docType" = .ok "doc_type" := by decide
example : toAllowedColumn "docType; DROP TABLE" = .error "Unsupported filter key: docType; DROP TABLE" := by decide

/-- One element of a legacy `must`/`must_not` array:
`{ key, match: { value?, text? } }`, with the `match` object flattened
(`match` is a Lean keyword). -/
structure MatchCond where
  key : String
  matchValue : Value := Value.undef
  matchText : Value := Value.undef
deriving DecidableEq, Repr

/-- One entry of a legacy filter object, in iteration order of
`Object.entries`.  A `must`/`must_not` key carries its cast array; any
other key is a simple key/value pair. -/
inductive LegacyEntry where
  | must (conds : List MatchCond)
  | must_not (conds : List MatchCond)
  | plain (key : String) (value : Value)
deriving DecidableEq, Repr

/-- The SQL fragment one legacy condition contributes: prefix-match
`LIKE` for the `path` column, plain `=`/`!=` otherwise, negated for
`must_not`. -/
def legacyFrag (tableAlias column : String) (neg : Bool) (paramIndex : Nat) : String :=
  if column = "path" then
    tableAlias ++ "." ++ column ++ (if neg then " NOT LIKE $" else " LIKE $") ++
      toString paramIndex ++ " || '%'"
  else
    tableAlias ++ "." ++ column ++ (if neg then " != $" else " = $") ++ toString paramIndex

/-- The inner loop over one `must`/`must_not` array. -/
def translateMustConds (neg : Bool) (conds : List MatchCond) (paramIndex : Nat)
    (tableAlias : String) : Except String (List String × List Value × Nat) :=
  match conds with
  | [] => .ok ([], [], paramIndex)
  | cond :: rest =>
    match toAllowedColumn cond.key with
    | .error e => .error e
    | .ok column =>
      let filterValue := nullish cond.matchValue cond.matchText
      match translateMustConds neg rest (paramIndex + 1) tableAlias with
      | .error e => .error e
      | .ok (frags, ps, next) =>
        .ok (legacyFrag tableAlias column neg paramIndex :: frags, filterValue :: ps, next)

/-- The `for (const [key, value] of Object.entries(filter))` loop of
`translateLegacyFilter`. -/
def translateLegacyEntries (entries : List LegacyEntry) (paramIndex : Nat)
    (tableAlias : String) : Except String (List String × List Value × Nat) :=
  match entries with
  | [] => .ok ([], [], paramIndex)
  | entry :: rest =>
    let this :=
      match entry with
      | .must conds => translateMustConds false conds paramIndex tableAlias
      | .must_not conds => translateMustConds true conds paramIndex tableAlias
      | .plain key value =>
        match toAllowedColumn key with
        | .error e => .error e
        | .ok column =>
          .ok ([legacyFrag tableAlias column false paramIndex], [value], paramIndex + 1)
    match this with
    | .error e => .error e
    | .ok (frags, ps, next) =>
      match translateLegacyEntries rest next tableAlias with
      | .error e => .error e
      | .ok (frags2, ps2, next2) => .ok (frags ++ frags2, ps ++ ps2, next2)

/-- Function `translateLegacyFilter` from the source. -/
def translateLegacyFilter (filter : List LegacyEntry) (paramIndexOffset : Nat)
    (tableAlias : String) : Except String SqlResult :=
  match translateLegacyEntries filter (1 + paramIndexOffset) tableAlias with
  | .error e => .error e
  | .ok (conditions, params, _) =>
    .ok ⟨if conditions.length > 0 then " AND " ++ String.intercalate " AND " conditions else "",
         params⟩

/-- The argument of the public `translateFilter`
(`Record<string, unknown> | FilterDSL`), split by its dispatch test
`"conditions" in filter`.  A JS object containing a `conditions` key is
`dsl d extraKeys`, where `extraKeys` lists its keys outside
`{conditions, combine}` (the legacy keys mixed in); any other object is
`legacy entries`. -/
inductive Filter where
  | dsl (d : FilterDSL) (extraKeys : List String)
  | legacy (entries : List LegacyEntry)
deriving DecidableEq, Repr

/-- Errors escaping `translateFilter`: `FilterValidationError` from the
DSL path, a plain `Error` (message only) from the legacy path. -/
inductive TransError where
  | filterValidation (e : FilterValidationError)
  | plainError (message : String)
deriving DecidableEq, Repr

/-- Function `translateFilter` from the source: absent filter compiles to the
empty fragment; a filter with a `conditions` key must not carry legacy
keys and goes to `translateNewDSL`; anything else goes to
`translateLegacyFilter`. -/
def translateFilter (filter : Option Filter) (paramIndexOffset : Nat := 0)
    (tableAlias : String := "c") : Except TransError SqlResult :=
  match filter with
  | none => .ok ⟨"", []⟩
  | some (.dsl d extraKeys) =>
    if extraKeys.length > 0 then
      .error (.filterValidation
        ⟨"Mixed filter format detected: DSL key \"conditions\" cannot be combined with legacy keys: " ++
          String.intercalate ", " extraKeys ++ "."⟩)
    else
      match translateNewDSL d paramIndexOffset with
      | .error e => .error (.filterValidation e)
      | .ok r => .ok r
  | some (.legacy entries) =>
    match translateLegacyFilter entries paramIndexOffset tableAlias with
    | .error msg => .error (.plainError msg)
    | .ok r => .ok r

example :
    translateFilter (some (.legacy [.plain "docType" (.str "code"),
                                    .must [⟨"path", .str "src/", Value.undef⟩]])) 0 "c" =
      .ok ⟨" AND c.doc_type = $1 AND c.path LIKE $2 || '%'", [.str "code", .str "src/"]⟩ := by
  decide

/-! ### Shape erasure

The *shape* of a filter keeps everything the compiler writes into the SQL
text (field names, operators, value arities, legacy keys, the combine
word) and erases every caller-supplied value.  Injection safety (claim
C1) is the statement that the emitted SQL is a function of the shape
alone, while the values surface only in the parameter list. -/

/-- Shape of one DSL condition: field, operator, and the arity of its
`values` array. -/
def condShape (c : FilterCondition) : String × String × Nat :=
  (c.field, c.op, (c.values.getD []).length)

/-- The caller-supplied values a condition contributes, in order
(branching in the same operator order as `translateCondition`). -/
def condValues (c : FilterCondition) : List Value :=
  if c.op = "eq" then [c.value]
  else if c.op = "ne" then [c.value]
  else if c.op = "gt" then [c.value]
  else if c.op = "gte" then [c.value]
  else if c.op = "lt" then [c.value]
  else if c.op = "lte" then [c.value]
  else if c.op = "in" then c.values.getD []
  else if c.op = "notIn" then c.values.getD []
  else if c.op = "between" then [c.rangeLow, c.rangeHigh]
  else if c.op = "notBetween" then [c.rangeLow, c.rangeHigh]
  else []

/-- How many positional parameters a condition of the given shape
consumes. -/
def shapeArity (op : String) (nvals : Nat) : Nat :=
  if op = "eq" then 1
  else if op = "ne" then 1
  else if op = "gt" then 1
  else if op = "gte" then 1
  else if op = "lt" then 1
  else if op = "lte" then 1
  else if op = "in" then nvals
  else if op = "notIn" then nvals
  else if op = "between" then 2
  else if op = "notBetween" then 2
  else 0

/-- The SQL text a successfully translated condition of the given shape
produces, as a function of the shape only. -/
def condSqlOfShape (field op : String) (nvals paramIndex : Nat) : String :=
  match FIELD_DEFS field with
  | none => ""
  | some fieldDef =>
    let col := fieldDef.tableAlias ++ "." ++ fieldDef.column
    let isPath := fieldDef.column = "path"
    if op = "eq" then
      if isPath then col ++ " LIKE $" ++ toString paramIndex ++ " || '%'"
      else col ++ " = $" ++ toString paramIndex
    else if op = "ne" then
      if isPath then col ++ " NOT LIKE $" ++ toString paramIndex ++ " || '%'"
      else col ++ " != $" ++ toString paramIndex
    else if op = "gt" then col ++ " > $" ++ toString paramIndex
    else if op = "gte" then col ++ " >= $" ++ toString paramIndex
    else if op = "lt" then col ++ " < $" ++ toString paramIndex
    else if op = "lte" then col ++ " <= $" ++ toString paramIndex
    else if op = "in" then
      col ++ " IN (" ++ String.intercalate ", " (placeholderList paramIndex nvals) ++ ")"
    else if op = "notIn" then
      col ++ " NOT IN (" ++ String.intercalate ", " (placeholderList paramIndex nvals) ++ ")"
    else if op = "between" then
      col ++ " >= $" ++ toString paramIndex ++ " AND " ++ col ++ " <= $" ++ toString (paramIndex + 1)
    else if op = "notBetween" then
      "(" ++ col ++ " < $" ++ toString paramIndex ++ " OR " ++ col ++ " > $" ++ toString (paramIndex + 1) ++ ")"
    else if op = "isNull" then col ++ " IS NULL"
    else if op = "isNotNull" then col ++ " IS NOT NULL"
    else ""

theorem condValues_length (c : FilterCondition) :
    (condValues c).length = shapeArity c.op (c.values.getD []).length := by
  unfold condValues shapeArity
  repeat' split
  all_goals rfl

theorem FIELD_DEFS_ops (field : String) (fd : FieldDef) (h : FIELD_DEFS field = some fd) :
    fd.allowedOps = TEXT_OPS ∨ fd.allowedOps = TEMPORAL_OPS := by
  unfold FIELD_DEFS at h
  cases hf : FIELD_DEFS_entries.find? (fun e => e.1 == field) with
  | none => rw [hf] at h; exact Option.noConfusion h
  | some e =>
    rw [hf] at h
    injection h with h
    subst h
    have hmem : e ∈ FIELD_DEFS_entries := List.mem_of_find?_eq_some hf
    have hall : ∀ x ∈ FIELD_DEFS_entries,
        x.2.allowedOps = TEXT_OPS ∨ x.2.allowedOps = TEMPORAL_OPS := by decide
    exact hall e hmem

-- Normal form of a successful `translateCondition`: the SQL text is a
-- function of the condition's shape and the parameter index alone, the
-- parameters are exactly the condition's values, and the index advances
-- by the arity.
set_option maxHeartbeats 1000000 in
theorem translateCondition_ok (c : FilterCondition) (i : Nat) (r : CondResult)
    (h : translateCondition c i = .ok r) :
    r.sql = condSqlOfShape c.field c.op (c.values.getD []).length i ∧
    r.params = condValues c ∧
    r.nextIndex = i + (condValues c).length := by
  unfold translateCondition at h
  cases hfd : FIELD_DEFS c.field with
  | none => rw [hfd] at h; exact absurd h (by simp)
  | some fieldDef =>
    rw [hfd] at h
    dsimp only at h
    simp only [condSqlOfShape, hfd]
    unfold condValues
    by_cases ha : c.aliasName ≠ none ∧ c.aliasName ≠ some fieldDef.tableAlias
    · rw [if_pos ha] at h; exact Except.noConfusion h
    · rw [if_neg ha] at h
      by_cases hop : c.op ∉ fieldDef.allowedOps
      · rw [if_pos hop] at h; exact Except.noConfusion h
      · rw [if_neg hop] at h
        simp only [not_not] at hop
        have hcases : c.op = "eq" ∨ c.op = "ne" ∨ c.op = "gt" ∨ c.op = "gte" ∨
            c.op = "lt" ∨ c.op = "lte" ∨ c.op = "in" ∨ c.op = "notIn" ∨
            c.op = "between" ∨ c.op = "notBetween" ∨ c.op = "isNull" ∨ c.op = "isNotNull" := by
          rcases FIELD_DEFS_ops c.field fieldDef hfd with hops | hops <;>
            rw [hops] at hop <;>
            simp only [TEXT_OPS, TEMPORAL_OPS, List.mem_cons, List.not_mem_nil, or_false] at hop <;>
            tauto
        rcases hcases with hop'|hop'|hop'|hop'|hop'|hop'|hop'|hop'|hop'|hop'|hop'|hop' <;>
          rw [hop'] at h ⊢ <;>
          simp only [String.reduceEq, reduceIte] at h ⊢ <;>
          first
          | (split_ifs at h ⊢ <;>
              first
              | exact Except.noConfusion h
              | (injection h with h; subst h; exact ⟨rfl, rfl, rfl⟩))
          | (injection h with h; subst h; exact ⟨rfl, rfl, rfl⟩)

/-- The SQL fragments of a condition list, as a function of the shapes
and the starting parameter index alone. -/
def condFragsOfShape : List (String × String × Nat) → Nat → List String
  | [], _ => []
  | (f, o, n) :: rest, i => condSqlOfShape f o n i :: condFragsOfShape rest (i + shapeArity o n)

theorem condFragsOfShape_length (shapes : List (String × String × Nat)) (i : Nat) :
    (condFragsOfShape shapes i).length = shapes.length := by
  induction shapes generalizing i with
  | nil => rfl
  | cons s rest ih => obtain ⟨f, o, n⟩ := s; simp [condFragsOfShape, ih]

-- Normal form of a successful run of the condition loop: the fragments
-- are a function of the shapes and the starting index, the parameters
-- are the concatenated condition values, and the final index advanced
-- by the total number of parameters.
theorem translateConds_ok (cs : List FilterCondition) (i : Nat)
    (frags : List String) (ps : List Value) (next : Nat)
    (h : translateConds cs i = .ok (frags, ps, next)) :
    frags = condFragsOfShape (cs.map condShape) i ∧
    ps = (cs.map condValues).flatten ∧
    next = i + ps.length := by
  induction cs generalizing i frags ps next with
  | nil =>
    unfold translateConds at h
    injection h with h
    simp only [Prod.mk.injEq] at h
    obtain ⟨h1, h2, h3⟩ := h
    subst h1; subst h2; subst h3
    simp [condFragsOfShape]
  | cons c rest ih =>
    unfold translateConds at h
    cases hc : translateCondition c i with
    | error e => rw [hc] at h; exact Except.noConfusion h
    | ok r =>
      rw [hc] at h
      dsimp only at h
      cases hr : translateConds rest r.nextIndex with
      | error e => rw [hr] at h; exact Except.noConfusion h
      | ok t =>
        obtain ⟨frags2, ps2, next2⟩ := t
        rw [hr] at h
        dsimp only at h
        injection h with h
        simp only [Prod.mk.injEq] at h
        obtain ⟨h1, h2, h3⟩ := h
        subst h1; subst h2; subst h3
        obtain ⟨hsql, hparams, hnext⟩ := translateCondition_ok c i r hc
        obtain ⟨ihf, ihp, ihn⟩ := ih r.nextIndex frags2 ps2 next2 hr
        refine ⟨?_, ?_, ?_⟩
        · simp only [List.map_cons, condFragsOfShape, condShape]
          rw [hsql, ihf, hnext, condValues_length]
        · simp only [List.map_cons, List.flatten_cons]
          rw [hparams, ihp]
        · rw [ihn, hnext]
          simp only [List.length_append, hparams]
          omega

/-- The SQL fragment `translateNewDSL` emits, as a function of the
condition shapes, the combine word, and the offset alone. -/
def dslSqlOfShape (shapes : List (String × String × Nat)) (combine : Option String)
    (off : Nat) : String :=
  let frags := condFragsOfShape shapes (1 + off)
  if frags.length = 0 then ""
  else if frags.length = 1 then " AND " ++ frags.headD ""
  else " AND (" ++ String.intercalate (" " ++ toUpperCase (combine.getD "and") ++ " ") frags ++ ")"

-- Normal form of a successful `translateNewDSL`: the SQL text is a
-- function of the filter's shape alone; the parameters are exactly the
-- concatenated caller-supplied values.
theorem translateNewDSL_ok (dsl : FilterDSL) (off : Nat) (r : SqlResult)
    (h : translateNewDSL dsl off = .ok r) :
    r.sql = dslSqlOfShape (dsl.conditions.map condShape) dsl.combine off ∧
    r.params = (dsl.conditions.map condValues).flatten := by
  unfold translateNewDSL at h
  by_cases hc : dsl.combine.getD "and" ≠ "and" ∧ dsl.combine.getD "and" ≠ "or"
  · rw [if_pos hc] at h; exact Except.noConfusion h
  · rw [if_neg hc] at h
    cases ht : translateConds dsl.conditions (1 + off) with
    | error e => rw [ht] at h; exact Except.noConfusion h
    | ok t =>
      obtain ⟨frags, ps, next⟩ := t
      rw [ht] at h
      dsimp only at h
      obtain ⟨hf, hp, hn⟩ := translateConds_ok _ _ _ _ _ ht
      unfold dslSqlOfShape
      rw [← hf]
      by_cases h0 : frags.length = 0
      · rw [if_pos h0] at h ⊢
        injection h with h
        subst h
        have hcs : dsl.conditions = [] := by
          have := condFragsOfShape_length (dsl.conditions.map condShape) (1 + off)
          rw [← hf, h0] at this
          exact List.map_eq_nil_iff.mp (List.length_eq_zero.mp this.symm)
        simp [hcs]
      · rw [if_neg h0] at h ⊢
        by_cases h1 : frags.length = 1
        · rw [if_pos h1] at h ⊢
          injection h with h
          subst h
          exact ⟨rfl, hp⟩
        · rw [if_neg h1] at h ⊢
          injection h with h
          subst h
          exact ⟨rfl, hp⟩

/-- Shape of one legacy entry: constructor plus keys, values erased. -/
inductive LegacyEntryShape where
  | must (keys : List String)
  | must_not (keys : List String)
  | plain (key : String)
deriving DecidableEq, Repr

def legacyEntryShape : LegacyEntry → LegacyEntryShape
  | .must cs => .must (cs.map MatchCond.key)
  | .must_not cs => .must_not (cs.map MatchCond.key)
  | .plain k _ => .plain k

/-- The caller-supplied values one legacy entry contributes, in order. -/
def entryValues : LegacyEntry → List Value
  | .must cs => cs.map (fun c => nullish c.matchValue c.matchText)
  | .must_not cs => cs.map (fun c => nullish c.matchValue c.matchText)
  | .plain _ v => [v]

/-- SQL fragments of one `must`/`must_not` array, as a function of the
keys alone. -/
def mustFragsOfShape (neg : Bool) (keys : List String) (i : Nat) (tableAlias : String) :
    List String :=
  match keys with
  | [] => []
  | k :: rest =>
    (match toAllowedColumn k with
     | .ok column => legacyFrag tableAlias column neg i
     | .error _ => "") :: mustFragsOfShape neg rest (i + 1) tableAlias

/-- SQL fragments of one legacy entry, as a function of its shape alone. -/
def entryFragsOfShape : LegacyEntryShape → Nat → String → List String
  | .must keys, i, tA => mustFragsOfShape false keys i tA
  | .must_not keys, i, tA => mustFragsOfShape true keys i tA
  | .plain k, i, tA =>
    [match toAllowedColumn k with
     | .ok column => legacyFrag tA column false i
     | .error _ => ""]

/-- How many positional parameters a legacy entry of this shape consumes. -/
def entryShapeArity : LegacyEntryShape → Nat
  | .must keys => keys.length
  | .must_not keys => keys.length
  | .plain _ => 1

/-- SQL fragments of a whole legacy filter, as a function of its shape. -/
def legacyFragsOfShape : List LegacyEntryShape → Nat → String → List String
  | [], _, _ => []
  | s :: rest, i, tA => entryFragsOfShape s i tA ++ legacyFragsOfShape rest (i + entryShapeArity s) tA

theorem translateMustConds_ok (neg : Bool) (conds : List MatchCond) (i : Nat) (tA : String)
    (frags : List String) (ps : List Value) (next : Nat)
    (h : translateMustConds neg conds i tA = .ok (frags, ps, next)) :
    frags = mustFragsOfShape neg (conds.map MatchCond.key) i tA ∧
    ps = conds.map (fun c => nullish c.matchValue c.matchText) ∧
    next = i + conds.length := by
  induction conds generalizing i frags ps next with
  | nil =>
    unfold translateMustConds at h
    injection h with h
    simp only [Prod.mk.injEq] at h
    obtain ⟨h1, h2, h3⟩ := h
    subst h1; subst h2; subst h3
    simp [mustFragsOfShape]
  | cons cond rest ih =>
    unfold translateMustConds at h
    cases hcol : toAllowedColumn cond.key with
    | error e => rw [hcol] at h; exact Except.noConfusion h
    | ok column =>
      rw [hcol] at h
      dsimp only at h
      cases hr : translateMustConds neg rest (i + 1) tA with
      | error e => rw [hr] at h; exact Except.noConfusion h
      | ok t =>
        obtain ⟨frags2, ps2, next2⟩ := t
        rw [hr] at h
        dsimp only at h
        injection h with h
        simp only [Prod.mk.injEq] at h
        obtain ⟨h1, h2, h3⟩ := h
        subst h1; subst h2; subst h3
        obtain ⟨ihf, ihp, ihn⟩ := ih (i + 1) frags2 ps2 next2 hr
        refine ⟨?_, ?_, ?_⟩
        · simp only [List.map_cons, mustFragsOfShape, hcol]
          rw [ihf]
        · simp only [List.map_cons]
          rw [ihp]
        · rw [ihn]
          simp only [List.length_cons]
          omega

theorem translateLegacyEntries_ok (entries : List LegacyEntry) (i : Nat) (tA : String)
    (frags : List String) (ps : List Value) (next : Nat)
    (h : translateLegacyEntries entries i tA = .ok (frags, ps, next)) :
    frags = legacyFragsOfShape (entries.map legacyEntryShape) i tA ∧
    ps = (entries.map entryValues).flatten ∧
    next = i + ps.length := by
  induction entries generalizing i frags ps next with
  | nil =>
    unfold translateLegacyEntries at h
    injection h with h
    simp only [Prod.mk.injEq] at h
    obtain ⟨h1, h2, h3⟩ := h
    subst h1; subst h2; subst h3
    simp [legacyFragsOfShape]
  | cons entry rest ih =>
    have key :
        ∀ (frags1 : List String) (ps1 : List Value) (next1 : Nat),
          (match entry with
            | .must conds => translateMustConds false conds i tA
            | .must_not conds => translateMustConds true conds i tA
            | .plain k v =>
              match toAllowedColumn k with
              | .error e => .error e
              | .ok column => .ok ([legacyFrag tA column false i], [v], i + 1)) =
            .ok (frags1, ps1, next1) →
          frags1 = entryFragsOfShape (legacyEntryShape entry) i tA ∧
          ps1 = entryValues entry ∧
          next1 = i + ps1.length := by
      intro frags1 ps1 next1 h1
      cases entry with
      | must conds =>
        dsimp only at h1
        obtain ⟨hf, hp, hn⟩ := translateMustConds_ok false conds i tA frags1 ps1 next1 h1
        refine ⟨by simpa [legacyEntryShape, entryFragsOfShape] using hf,
                by simpa [entryValues] using hp, ?_⟩
        rw [hn, hp]; simp
      | must_not conds =>
        dsimp only at h1
        obtain ⟨hf, hp, hn⟩ := translateMustConds_ok true conds i tA frags1 ps1 next1 h1
        refine ⟨by simpa [legacyEntryShape, entryFragsOfShape] using hf,
                by simpa [entryValues] using hp, ?_⟩
        rw [hn, hp]; simp
      | plain k v =>
        dsimp only at h1
        cases hcol : toAllowedColumn k with
        | error e => rw [hcol] at h1; exact Except.noConfusion h1
        | ok column =>
          rw [hcol] at h1
          injection h1 with h1
          simp only [Prod.mk.injEq] at h1
          obtain ⟨h2, h3, h4⟩ := h1
          subst h2; subst h3; subst h4
          simp [legacyEntryShape, entryFragsOfShape, entryValues, hcol]
    unfold translateLegacyEntries at h
    dsimp only at h
    cases hthis :
        (match entry with
          | .must conds => translateMustConds false conds i tA
          | .must_not conds => translateMustConds true conds i tA
          | .plain k v =>
            match toAllowedColumn k with
            | .error e => .error e
            | .ok column => .ok ([legacyFrag tA column false i], [v], i + 1)) with
    | error e => rw [hthis] at h; exact Except.noConfusion h
    | ok t =>
      obtain ⟨frags1, ps1, next1⟩ := t
      rw [hthis] at h
      dsimp only at h
      cases hr : translateLegacyEntries rest next1 tA with
      | error e => rw [hr] at h; exact Except.noConfusion h
      | ok t2 =>
        obtain ⟨frags2, ps2, next2⟩ := t2
        rw [hr] at h
        dsimp only at h
        injection h with h
        simp only [Prod.mk.injEq] at h
        obtain ⟨h1, h2, h3⟩ := h
        subst h1; subst h2; subst h3
        obtain ⟨hf1, hp1, hn1⟩ := key frags1 ps1 next1 hthis
        obtain ⟨ihf, ihp, ihn⟩ := ih next1 frags2 ps2 next2 hr
        refine ⟨?_, ?_, ?_⟩
        · simp only [List.map_cons, legacyFragsOfShape]
          rw [hf1, ihf, hn1, hp1]
          have : (entryValues entry).length = entryShapeArity (legacyEntryShape entry) := by
            cases entry <;> simp [entryValues, legacyEntryShape, entryShapeArity]
          rw [this]
        · simp only [List.map_cons, List.flatten_cons]
          rw [hp1, ihp]
        · rw [ihn, hn1]
          simp only [List.length_append]
          omega

/-- The SQL fragment `translateLegacyFilter` emits, as a function of the
entry shapes, the offset and the table alias alone. -/
def legacySqlOfShape (shapes : List LegacyEntryShape) (off : Nat) (tA : String) : String :=
  let conds := legacyFragsOfShape shapes (1 + off) tA
  if conds.length > 0 then " AND " ++ String.intercalate " AND " conds else ""

theorem translateLegacyFilter_ok (entries : List LegacyEntry) (off : Nat) (tA : String)
    (r : SqlResult) (h : translateLegacyFilter entries off tA = .ok r) :
    r.sql = legacySqlOfShape (entries.map legacyEntryShape) off tA ∧
    r.params = (entries.map entryValues).flatten := by
  unfold translateLegacyFilter at h
  cases he : translateLegacyEntries entries (1 + off) tA with
  | error e => rw [he] at h; exact Except.noConfusion h
  | ok t =>
    obtain ⟨conds, params, next⟩ := t
    rw [he] at h
    dsimp only at h
    injection h with h
    subst h
    obtain ⟨hf, hp, _⟩ := translateLegacyEntries_ok entries (1 + off) tA conds params next he
    unfold legacySqlOfShape
    rw [← hf]
    exact ⟨rfl, hp⟩

/-- Shape of a whole `translateFilter` argument: everything except the
caller-supplied values. -/
def filterShape :
    Filter → (List (String × String × Nat) × Option String × List String) ⊕ (List LegacyEntryShape)
  | .dsl d extraKeys => .inl (d.conditions.map condShape, d.combine, extraKeys)
  | .legacy es => .inr (es.map legacyEntryShape)

/-- All caller-supplied values of a filter, in translation order. -/
def suppliedValues : Filter → List Value
  | .dsl d _ => (d.conditions.map condValues).flatten
  | .legacy es => (es.map entryValues).flatten

theorem translateFilter_dsl_ok (d : FilterDSL) (extraKeys : List String) (off : Nat)
    (tA : String) (r : SqlResult)
    (h : translateFilter (some (.dsl d extraKeys)) off tA = .ok r) :
    extraKeys = [] ∧ translateNewDSL d off = .ok r := by
  unfold translateFilter at h
  dsimp only at h
  by_cases he : extraKeys.length > 0
  · rw [if_pos he] at h; exact Except.noConfusion h
  · rw [if_neg he] at h
    refine ⟨List.length_eq_zero.mp (by omega), ?_⟩
    cases hd : translateNewDSL d off with
    | error e => rw [hd] at h; exact Except.noConfusion h
    | ok r2 => rw [hd] at h; dsimp only at h; injection h with h; rw [h]

theorem translateFilter_legacy_ok (entries : List LegacyEntry) (off : Nat)
    (tA : String) (r : SqlResult)
    (h : translateFilter (some (.legacy entries)) off tA = .ok r) :
    translateLegacyFilter entries off tA = .ok r := by
  unfold translateFilter at h
  dsimp only at h
  cases hl : translateLegacyFilter entries off tA with
  | error e => rw [hl] at h; exact Except.noConfusion h
  | ok r2 => rw [hl] at h; dsimp only at h; injection h with h; rw [h]

/-- C1: the filter compiler is injection-safe.  Any two filters of the
same shape (same fields, operators, value arities, legacy keys and
combine word) that both compile — at the same offset and table alias —
produce *identical* SQL text, and each filter's parameter list is exactly
its caller-supplied values in order: values never reach the SQL text,
only the positional parameter list. -/
theorem translateFilter_injection_safe
    (f f' : Filter) (off : Nat) (tA : String) (r r' : SqlResult)
    (hshape : filterShape f = filterShape f')
    (h : translateFilter (some f) off tA = .ok r)
    (h' : translateFilter (some f') off tA = .ok r') :
    r.sql = r'.sql ∧ r.params = suppliedValues f ∧ r'.params = suppliedValues f' := by
  cases f with
  | dsl d extraKeys =>
    cases f' with
    | legacy es' => simp [filterShape] at hshape
    | dsl d' extraKeys' =>
      simp only [filterShape, Sum.inl.injEq, Prod.mk.injEq] at hshape
      obtain ⟨hs, hcomb, _⟩ := hshape
      obtain ⟨_, hd⟩ := translateFilter_dsl_ok d extraKeys off tA r h
      obtain ⟨_, hd'⟩ := translateFilter_dsl_ok d' extraKeys' off tA r' h'
      obtain ⟨hsql, hp⟩ := translateNewDSL_ok d off r hd
      obtain ⟨hsql', hp'⟩ := translateNewDSL_ok d' off r' hd'
      refine ⟨?_, ?_, ?_⟩
      · rw [hsql, hsql', hs, hcomb]
      · simpa [suppliedValues] using hp
      · simpa [suppliedValues] using hp'
  | legacy es =>
    cases f' with
    | dsl d' extraKeys' => simp [filterShape] at hshape
    | legacy es' =>
      simp only [filterShape, Sum.inr.injEq] at hshape
      have hl := translateFilter_legacy_ok es off tA r h
      have hl' := translateFilter_legacy_ok es' off tA r' h'
      obtain ⟨hsql, hp⟩ := translateLegacyFilter_ok es off tA r hl
      obtain ⟨hsql', hp'⟩ := translateLegacyFilter_ok es' off tA r' hl'
      refine ⟨?_, ?_, ?_⟩
      · rw [hsql, hsql', hshape]
      · simpa [suppliedValues] using hp
      · simpa [suppliedValues] using hp'

/-- A DSL filter: one `docType eq` condition with the benign value `"code"`. -/
def c1FilterA : Filter :=
  .dsl ⟨[⟨"docType", "eq", .str "code", none, none, none⟩], none⟩ []

/-- Same shape as `c1FilterA`, but the value is a hostile SQL string. -/
def c1FilterB : Filter :=
  .dsl ⟨[⟨"docType", "eq", .str "code'; DROP TABLE chunks;--", none, none, none⟩], none⟩ []

/-- Witness for C1: the benign and the hostile filter have the same
shape, both compile, and the theorem yields identical SQL with the values
confined to the parameter lists. -/
theorem translateFilter_injection_safe_witness :
    filterShape c1FilterA = filterShape c1FilterB ∧
    translateFilter (some c1FilterA) 0 "c" = .ok ⟨" AND c.doc_type = $1", [.str "code"]⟩ ∧
    translateFilter (some c1FilterB) 0 "c" =
      .ok ⟨" AND c.doc_type = $1", [.str "code'; DROP TABLE chunks;--"]⟩ ∧
    (SqlResult.sql ⟨" AND c.doc_type = $1", [.str "code"]⟩ =
        SqlResult.sql ⟨" AND c.doc_type = $1", [.str "code'; DROP TABLE chunks;--"]⟩ ∧
      SqlResult.params ⟨" AND c.doc_type = $1", [.str "code"]⟩ = suppliedValues c1FilterA ∧
      SqlResult.params ⟨" AND c.doc_type = $1", [.str "code'; DROP TABLE chunks;--"]⟩ =
        suppliedValues c1FilterB) :=
  ⟨by decide, by decide, by decide,
    translateFilter_injection_safe c1FilterA c1FilterB 0 "c" _ _
      (by decide) (by decide) (by decide)⟩

/-! ### Error characterisation (claim C2) -/

/-- The rejection predicate for one DSL condition, read off the claim:
unknown field; supplied alias differing from the field's fixed alias;
operator outside the field's allowed set (which subsumes unknown
operators); `in`/`notIn` without a non-empty values array;
`between`/`notBetween` without both range bounds. -/
def condInvalid (c : FilterCondition) : Bool :=
  match FIELD_DEFS c.field with
  | none => true
  | some fieldDef =>
    decide (c.aliasName ≠ none ∧ c.aliasName ≠ some fieldDef.tableAlias) ||
    decide (c.op ∉ fieldDef.allowedOps) ||
    ((c.op == "in" || c.op == "notIn") && (c.values.getD []).isEmpty) ||
    ((c.op == "between" || c.op == "notBetween") &&
      decide (c.range = none ∨ c.rangeLow = Value.undef ∨ c.rangeHigh = Value.undef))

/-- A combine word other than `"and"`/`"or"` (a missing one defaults to
`"and"`). -/
def combineInvalid (combine : Option String) : Bool :=
  decide (combine.getD "and" ≠ "and" ∧ combine.getD "and" ≠ "or")

set_option maxHeartbeats 1000000 in
theorem translateCondition_error_iff (c : FilterCondition) (i : Nat) :
    (∃ e, translateCondition c i = .error e) ↔ condInvalid c = true := by
  unfold translateCondition condInvalid
  cases hfd : FIELD_DEFS c.field with
  | none => simp
  | some fieldDef =>
    dsimp only
    by_cases ha : c.aliasName ≠ none ∧ c.aliasName ≠ some fieldDef.tableAlias
    · rw [if_pos ha]; simp [ha]
    · rw [if_neg ha]
      by_cases hop : c.op ∉ fieldDef.allowedOps
      · rw [if_pos hop]; simp [ha, hop]
      · rw [if_neg hop]
        simp only [not_not] at hop
        have hcases : c.op = "eq" ∨ c.op = "ne" ∨ c.op = "gt" ∨ c.op = "gte" ∨
            c.op = "lt" ∨ c.op = "lte" ∨ c.op = "in" ∨ c.op = "notIn" ∨
            c.op = "between" ∨ c.op = "notBetween" ∨ c.op = "isNull" ∨ c.op = "isNotNull" := by
          rcases FIELD_DEFS_ops c.field fieldDef hfd with hops | hops <;>
            rw [hops] at hop <;>
            simp only [TEXT_OPS, TEMPORAL_OPS, List.mem_cons, List.not_mem_nil, or_false] at hop <;>
            tauto
        rcases hcases with hop'|hop'|hop'|hop'|hop'|hop'|hop'|hop'|hop'|hop'|hop'|hop' <;>
          rw [hop'] <;> rw [hop'] at hop <;>
          simp only [String.reduceEq, String.reduceBEq, reduceIte, Bool.false_and,
            Bool.false_or, Bool.or_false, Bool.true_and, Bool.or_self,
            decide_eq_false ha, decide_eq_false (not_not_intro hop)] <;>
          (try simp) <;>
          (try (split_ifs <;> simp_all [List.isEmpty_iff, List.length_eq_zero]))

theorem translateConds_error_iff (cs : List FilterCondition) (i : Nat) :
    (∃ e, translateConds cs i = .error e) ↔ cs.any condInvalid = true := by
  induction cs generalizing i with
  | nil => simp [translateConds]
  | cons c rest ih =>
    unfold translateConds
    cases hc : translateCondition c i with
    | error e =>
      dsimp only
      simp only [List.any_cons, Bool.or_eq_true]
      constructor
      · intro _; exact Or.inl ((translateCondition_error_iff c i).mp ⟨e, hc⟩)
      · intro _; exact ⟨e, rfl⟩
    | ok r =>
      dsimp only
      cases hr : translateConds rest r.nextIndex with
      | error e2 =>
        dsimp only
        simp only [List.any_cons, Bool.or_eq_true]
        constructor
        · intro _; exact Or.inr ((ih r.nextIndex).mp ⟨e2, hr⟩)
        · intro _; exact ⟨e2, rfl⟩
      | ok t =>
        obtain ⟨frags, ps, next⟩ := t
        dsimp only
        simp only [List.any_cons, Bool.or_eq_true]
        constructor
        · rintro ⟨e, he⟩; exact Except.noConfusion he
        · rintro (hbad | hbad)
          · exact absurd ((translateCondition_error_iff c i).mpr hbad) (by simp [hc])
          · exact absurd ((ih r.nextIndex).mpr hbad) (by simp [hr])

theorem translateNewDSL_error_iff (dsl : FilterDSL) (off : Nat) :
    (∃ e, translateNewDSL dsl off = .error e) ↔
      (combineInvalid dsl.combine = true ∨ dsl.conditions.any condInvalid = true) := by
  unfold translateNewDSL
  by_cases hc : dsl.combine.getD "and" ≠ "and" ∧ dsl.combine.getD "and" ≠ "or"
  · rw [if_pos hc]
    constructor
    · intro _; exact Or.inl (by simpa [combineInvalid] using hc)
    · intro _; exact ⟨_, rfl⟩
  · rw [if_neg hc]
    cases ht : translateConds dsl.conditions (1 + off) with
    | error e =>
      dsimp only
      constructor
      · intro _; exact Or.inr ((translateConds_error_iff _ _).mp ⟨e, ht⟩)
      · intro _; exact ⟨e, rfl⟩
    | ok t =>
      obtain ⟨frags, ps, next⟩ := t
      dsimp only
      constructor
      · rintro ⟨e, he⟩
        split_ifs at he
      · rintro (hbad | hbad)
        · exact absurd hbad (by simp [combineInvalid, hc])
        · exact absurd ((translateConds_error_iff dsl.conditions (1 + off)).mpr hbad)
            (by simp [ht])

/-- C2: a DSL filter (an object whose `conditions` key is present,
`extraKeys` being its keys outside `{conditions, combine}`) is rejected
by `translateFilter` *exactly when* it mixes in a legacy key, its combine
word is invalid, or some condition is invalid — unknown field, alias
differing from the field's fixed alias, operator outside the field's
allowed set (which subsumes unknown operators), `in`/`notIn` without a
non-empty values list, or `between`/`notBetween` missing `range.low` or
`range.high`; and every error raised on this path is a
`FilterValidationError` carrying HTTP status 400. -/
theorem translateFilter_dsl_error_iff
    (d : FilterDSL) (extraKeys : List String) (off : Nat) (tA : String) :
    ((∃ e, translateFilter (some (.dsl d extraKeys)) off tA = .error e) ↔
      (extraKeys ≠ [] ∨ combineInvalid d.combine = true ∨
        ∃ c ∈ d.conditions, condInvalid c = true)) ∧
    (∀ e, translateFilter (some (.dsl d extraKeys)) off tA = .error e →
      ∃ fve, e = .filterValidation fve ∧ fve.statusCode = 400) := by
  unfold translateFilter
  dsimp only
  by_cases he : extraKeys.length > 0
  · rw [if_pos he]
    refine ⟨⟨fun _ => Or.inl ?_, fun _ => ⟨_, rfl⟩⟩, fun e hee => ?_⟩
    · intro hnil; rw [hnil] at he; simp at he
    · injection hee with hee; exact ⟨_, hee.symm, rfl⟩
  · rw [if_neg he]
    have hnil : extraKeys = [] := List.length_eq_zero.mp (by omega)
    cases hd : translateNewDSL d off with
    | error e0 =>
      dsimp only
      refine ⟨⟨fun _ => Or.inr ?_, fun _ => ⟨_, rfl⟩⟩, fun e hee => ?_⟩
      · rcases (translateNewDSL_error_iff d off).mp ⟨e0, hd⟩ with h1 | h1
        · exact Or.inl h1
        · exact Or.inr (by simpa [List.any_eq_true] using h1)
      · injection hee with hee; exact ⟨e0, hee.symm, rfl⟩
    | ok r =>
      dsimp only
      refine ⟨⟨fun hex => ?_, fun hbad => ?_⟩, fun e hee => Except.noConfusion hee⟩
      · obtain ⟨e, hee⟩ := hex; exact Except.noConfusion hee
      · rcases hbad with hbad | hbad | hbad
        · exact absurd hnil hbad
        · exact absurd ((translateNewDSL_error_iff d off).mpr (Or.inl hbad)) (by simp [hd])
        · exact absurd ((translateNewDSL_error_iff d off).mpr
            (Or.inr (by simpa [List.any_eq_true] using hbad))) (by simp [hd])

/-- Witness for C2: the operator `gt` is not allowed on the text field
`docType`, so the filter is rejected, and the error carries status 400. -/
theorem translateFilter_dsl_error_iff_witness :
    (∃ e, translateFilter
        (some (.dsl ⟨[⟨"docType", "gt", .str "x", none, none, none⟩], none⟩ [])) 0 "c" =
          .error e) ∧
    (∀ e, translateFilter
        (some (.dsl ⟨[⟨"docType", "gt", .str "x", none, none, none⟩], none⟩ [])) 0 "c" =
          .error e →
      ∃ fve, e = .filterValidation fve ∧ fve.statusCode = 400) :=
  ⟨((translateFilter_dsl_error_iff ⟨[⟨"docType", "gt", .str "x", none, none, none⟩], none⟩
        [] 0 "c").1).mpr
      (Or.inr (Or.inr ⟨⟨"docType", "gt", .str "x", none, none, none⟩, by decide, by decide⟩)),
    (translateFilter_dsl_error_iff ⟨[⟨"docType", "gt", .str "x", none, none, none⟩], none⟩
        [] 0 "c").2⟩

/-! ### Fragment shape (claim C3) -/

/-- C3 counterexample: the empty DSL filter `{conditions: []}` compiles
successfully, yet its emitted fragment is `""`, which is not of the form
`" AND <joined>"` — so the claim's universal statement fails for DSL
filters with zero conditions. -/
theorem translateFilter_emptyDSL_counterexample :
    translateFilter (some (.dsl ⟨[], none⟩ [])) 0 "c" = .ok ⟨"", []⟩ ∧
    " AND ".isPrefixOf (SqlResult.sql ⟨"", []⟩) = false :=
  ⟨by decide, by decide⟩

/-- C3 (amended to DSL filters with at least one condition; the empty
filter compiles to `""`): a compiling DSL filter emits
`" AND <joined>"`, the joined conditions wrapped in outer parentheses
exactly when there are ≥ 2 of them; parameter indices start at the
caller-supplied offset plus one and advance by each condition's arity;
`eq`/`ne` on the `path` field becomes a prefix match
(`LIKE $N || '%'` / `NOT LIKE $N || '%'`); and the claim's example
filter compiles to `" AND (c.doc_type = $1 OR c.lang = $2)"` with
params `["code", "ts"]`. -/
theorem translateFilter_dsl_fragment_shape
    (d : FilterDSL) (off : Nat) (tA : String) (r : SqlResult)
    (hne : d.conditions ≠ [])
    (h : translateFilter (some (.dsl d [])) off tA = .ok r) :
    (∃ frags next,
        translateConds d.conditions (1 + off) = .ok (frags, r.params, next) ∧
        frags.length = d.conditions.length ∧
        next = 1 + off + r.params.length ∧
        r.sql = " AND " ++
          (if frags.length = 1 then frags.headD ""
           else "(" ++ String.intercalate
              (" " ++ toUpperCase (d.combine.getD "and") ++ " ") frags ++ ")")) ∧
    (∀ (c : FilterCondition) (j : Nat) (rc : CondResult),
        translateCondition c j = .ok rc →
        rc.nextIndex = j + rc.params.length ∧
        (c.field = "path" → c.op = "eq" →
          rc.sql = "c.path LIKE $" ++ toString j ++ " || '%'") ∧
        (c.field = "path" → c.op = "ne" →
          rc.sql = "c.path NOT LIKE $" ++ toString j ++ " || '%'")) ∧
    translateFilter
        (some (.dsl ⟨[⟨"docType", "eq", .str "code", none, none, none⟩,
                      ⟨"lang", "eq", .str "ts", none, none, none⟩], some "or"⟩ []))
        0 "c" =
      .ok ⟨" AND (c.doc_type = $1 OR c.lang = $2)", [.str "code", .str "ts"]⟩ := by
  obtain ⟨-, hd⟩ := translateFilter_dsl_ok d [] off tA r h
  refine ⟨?_, ?_, by decide⟩
  · revert hd
    unfold translateNewDSL
    by_cases hcomb : d.combine.getD "and" ≠ "and" ∧ d.combine.getD "and" ≠ "or"
    · rw [if_pos hcomb]; intro hd; exact Except.noConfusion hd
    · rw [if_neg hcomb]
      cases ht : translateConds d.conditions (1 + off) with
      | error e => dsimp only; intro hd; exact Except.noConfusion hd
      | ok t =>
        obtain ⟨frags, ps, next⟩ := t
        dsimp only
        intro hd
        obtain ⟨hf, hp, hn⟩ := translateConds_ok d.conditions (1 + off) frags ps next ht
        have hlenf : frags.length = d.conditions.length := by
          rw [hf, condFragsOfShape_length, List.length_map]
        have hfragsne : ¬ frags.length = 0 := by
          rw [hlenf]
          intro h0
          exact hne (List.length_eq_zero.mp h0)
        rw [if_neg hfragsne] at hd
        injection hd with hd
        subst hd
        dsimp only
        exact ⟨frags, next, rfl, hlenf, hn, rfl⟩
  · intro c j rc hok
    obtain ⟨hsql, hparams, hnext⟩ := translateCondition_ok c j rc hok
    have hpathDef : FIELD_DEFS "path" = some ⟨"c", "path", TEXT_OPS⟩ := by decide
    refine ⟨by rw [hnext, hparams], ?_, ?_⟩
    · intro hfield hopeq
      rw [hsql, hfield, hopeq]
      simp only [condSqlOfShape, hpathDef]
      simp
    · intro hfield hopne
      rw [hsql, hfield, hopne]
      simp only [condSqlOfShape, hpathDef]
      simp

/-- The claim's example DSL filter: docType eq "code", lang eq "ts",
combined with `or`. -/
def c3Dsl : FilterDSL :=
  ⟨[⟨"docType", "eq", .str "code", none, none, none⟩,
    ⟨"lang", "eq", .str "ts", none, none, none⟩], some "or"⟩

/-- The fragment and params the example compiles to. -/
def c3Result : SqlResult :=
  ⟨" AND (c.doc_type = $1 OR c.lang = $2)", [.str "code", .str "ts"]⟩

/-- Witness for the amended C3 at the claim's own example filter. -/
theorem translateFilter_dsl_fragment_shape_witness :
    c3Dsl.conditions ≠ [] ∧
    ((∃ frags next,
        translateConds c3Dsl.conditions (1 + 0) = .ok (frags, c3Result.params, next) ∧
        frags.length = c3Dsl.conditions.length ∧
        next = 1 + 0 + c3Result.params.length ∧
        c3Result.sql = " AND " ++
          (if frags.length = 1 then frags.headD ""
           else "(" ++ String.intercalate
              (" " ++ toUpperCase (c3Dsl.combine.getD "and") ++ " ") frags ++ ")")) ∧
    (∀ (c : FilterCondition) (j : Nat) (rc : CondResult),
        translateCondition c j = .ok rc →
        rc.nextIndex = j + rc.params.length ∧
        (c.field = "path" → c.op = "eq" →
          rc.sql = "c.path LIKE $" ++ toString j ++ " || '%'") ∧
        (c.field = "path" → c.op = "ne" →
          rc.sql = "c.path NOT LIKE $" ++ toString j ++ " || '%'")) ∧
    translateFilter
        (some (.dsl ⟨[⟨"docType", "eq", .str "code", none, none, none⟩,
                      ⟨"lang", "eq", .str "ts", none, none, none⟩], some "or"⟩ []))
        0 "c" =
      .ok ⟨" AND (c.doc_type = $1 OR c.lang = $2)", [.str "code", .str "ts"]⟩) :=
  ⟨by decide,
    translateFilter_dsl_fragment_shape c3Dsl 0 "c" c3Result (by decide) (by decide)⟩

end RagStack
